import Mathlib

/-!
Verification of the envyeet environment-file merger.

The development shallowly embeds the core of `envyeet.py`:
`parse_env_file` (line classification and key indexing), `generate_line`
(line rendering), and `merge_env_files` (the merge engine, including the
squash mode and the dry-run report).  Text is modelled as `List Char`;
file reading is modelled by supplying the file content (or a read-failure
marker) directly.
-/

set_option autoImplicit false

namespace Envyeet

/-- ASCII whitespace as stripped by Python's `str.strip()` and matched by
the regex class `\s` (on the inputs relevant here). -/
def pyIsSpace (c : Char) : Bool :=
  c == ' ' || c == '\t' || c == '\n' || c == '\r' || c == '\x0b' || c == '\x0c'

/-- Python's `str.strip()`: drop whitespace from both ends. -/
def pyStrip (s : List Char) : List Char :=
  ((s.dropWhile pyIsSpace).reverse.dropWhile pyIsSpace).reverse

/-- First character of a regex identifier `[A-Za-z_]`. -/
def isIdentStart (c : Char) : Bool :=
  c.isAlpha || c == '_'

/-- Subsequent identifier characters `[A-Za-z0-9_]`. -/
def isIdentChar (c : Char) : Bool :=
  isIdentStart c || c.isDigit

/-- The characters of the keyword `export`. -/
def exportChars : List Char := ['e', 'x', 'p', 'o', 'r', 't']

/-- The characters of `"export "` (keyword plus one space). -/
def exportSpChars : List Char := ['e', 'x', 'p', 'o', 'r', 't', ' ']

/-- Match `([A-Za-z_][A-Za-z0-9_]*)=` at the head of `s`, returning the
identifier and the remainder after the `=`.  The regex star is greedy and
the character after any shorter identifier run is again an identifier
character (never `=`), so the maximal run is the only candidate. -/
def matchKeyEq (s : List Char) : Option (List Char × List Char) :=
  match s with
  | [] => none
  | c :: rest =>
    if isIdentStart c then
      match rest.dropWhile isIdentChar with
      | '=' :: rest2 => some (c :: rest.takeWhile isIdentChar, rest2)
      | _ => none
    else none

/-- Match `(.*)$` against the remainder of a line: `.` does not cross a
newline and `$` matches at the end of the string or just before one final
trailing newline. -/
def matchValueEnd (s : List Char) : Option (List Char) :=
  match s.dropWhile (fun c => c != '\n') with
  | [] => some (s.takeWhile (fun c => c != '\n'))
  | ['\n'] => some (s.takeWhile (fun c => c != '\n'))
  | _ => none

/-- Match `([A-Za-z_][A-Za-z0-9_]*)=(.*)$` at the head of `s`. -/
def tryKeyValue (s : List Char) : Option (List Char × List Char) :=
  match matchKeyEq s with
  | some (k, rest) =>
    match matchValueEnd rest with
    | some v => some (k, v)
    | none => none
  | none => none

/-- The anchored match of `^(?:export\s+)?([A-Za-z_][A-Za-z0-9_]*)=(.*)$`
against a whole line, with the regex engine's backtracking: the optional
`export\s+` group is tried greedily first; `\s+` must consume the whole
whitespace run (identifier characters are never whitespace); on any
failure after the group the match is retried without it. -/
def matchEnvLine (line : List Char) : Option (List Char × List Char) :=
  if exportChars.isPrefixOf line then
    let afterKw := line.drop 6
    if (afterKw.takeWhile pyIsSpace).isEmpty then tryKeyValue line
    else
      match tryKeyValue (afterKw.dropWhile pyIsSpace) with
      | some r => some r
      | none => tryKeyValue line
  else tryKeyValue line

/-- Quote detection on the raw value span: a span that starts and ends
with the same quote character and has length at least two is unwrapped;
otherwise the span is kept verbatim with no quote style. -/
def stripQuote (v : List Char) : Option Char × List Char :=
  if 2 ≤ v.length ∧ v.head? = some '\'' ∧ v.getLast? = some '\'' then
    (some '\'', (v.drop 1).dropLast)
  else if 2 ≤ v.length ∧ v.head? = some '"' ∧ v.getLast? = some '"' then
    (some '"', (v.drop 1).dropLast)
  else (none, v)

/-- One parsed line of an environment file (the `EnvLine` class). -/
structure EnvLine where
  raw : List Char
  key : Option (List Char)
  value : Option (List Char)
  quote_style : Option Char
  is_export : Bool
  is_comment : Bool
  is_empty : Bool
deriving DecidableEq, Repr

instance : Inhabited EnvLine :=
  ⟨⟨[], none, none, none, false, false, false⟩⟩

/-- Classify one physical line, mirroring the per-line body of
`parse_env_file`: blank and comment checks use the stripped text, the
assignment grammar is matched against the raw line, and the export flag
is set when the stripped line starts with `"export "`. -/
def classifyLine (line : List Char) : EnvLine :=
  let stripped := pyStrip line
  if stripped.isEmpty then
    ⟨line, none, none, none, false, false, true⟩
  else if stripped.head? = some '#' then
    ⟨line, none, none, none, false, true, false⟩
  else
    match matchEnvLine line with
    | some (k, vpart) =>
      ⟨line, some k, some (stripQuote vpart).2, (stripQuote vpart).1,
        exportSpChars.isPrefixOf stripped, false, false⟩
    | none => ⟨line, none, none, none, false, false, true⟩

/-- The key index: an insertion-ordered association list, modelling a
Python `dict`. -/
abbrev EnvDict := List (List Char × EnvLine)

/-- Dictionary lookup (`d[k]` / `k in d`). -/
def dictLookup (d : EnvDict) (k : List Char) : Option EnvLine :=
  match d with
  | [] => none
  | (k0, v) :: rest => if k0 = k then some v else dictLookup rest k

/-- Dictionary update `d[k] = v`: an existing key keeps its position,
a new key is appended (Python insertion-order semantics). -/
def dictInsert (d : EnvDict) (k : List Char) (v : EnvLine) : EnvDict :=
  match d with
  | [] => [(k, v)]
  | (k0, v0) :: rest =>
    if k0 = k then (k, v) :: rest else (k0, v0) :: dictInsert rest k v

/-- Build the key index over a list of physical lines: every line whose
classification yields a key overwrites the index entry for that key. -/
def buildDict (d : EnvDict) : List (List Char) → EnvDict
  | [] => d
  | line :: rest =>
    match (classifyLine line).key with
    | some k => buildDict (dictInsert d k (classifyLine line)) rest
    | none => buildDict d rest

/-- Helper for `splitLines`; `acc` holds the current line reversed. -/
def splitLinesAux (acc : List Char) : List Char → List (List Char)
  | [] => if acc.isEmpty then [] else [acc.reverse]
  | c :: rest =>
    if c == '\n' then (acc.reverse ++ ['\n']) :: splitLinesAux [] rest
    else splitLinesAux (c :: acc) rest

/-- Python's `readlines()`: split after every newline, keeping the
newline on each line; a final fragment without a newline is kept. -/
def splitLines (t : List Char) : List (List Char) := splitLinesAux [] t

/-- The pure core of `parse_env_file`: the key index and the ordered
line records of a file text. -/
def parseEnvText (t : List Char) : EnvDict × List EnvLine :=
  (buildDict [] (splitLines t), (splitLines t).map classifyLine)

/-- `generate_line`: render one line with the appropriate quoting and
optional `export ` marker.  A missing value is treated as empty. -/
def generate_line (key : List Char) (value : Option (List Char))
    (is_export : Bool) (quote_style : Option Char) : List Char :=
  let safe_value := value.getD []
  let formatted_value :=
    if quote_style = some '\'' then '\'' :: (safe_value ++ ['\''])
    else if quote_style = some '"' then '"' :: (safe_value ++ ['"'])
    else safe_value
  (if is_export then exportSpChars else []) ++ key ++ '=' :: (formatted_value ++ ['\n'])

/-- The merge engine's treatment of one target line: an assignment whose
(nonempty) key is in the source index is re-rendered from the source
record with the export flags OR-combined; every other line passes
through verbatim. -/
def mergeTargetLine (sdict : EnvDict) (l : EnvLine) : List Char :=
  match l.key with
  | some k =>
    if k.isEmpty then l.raw
    else
      match dictLookup sdict k with
      | some sl => generate_line k sl.value (l.is_export || sl.is_export) sl.quote_style
      | none => l.raw
  | none => l.raw

/-- Whether a target line's key gets updated by the merge. -/
def updatedFlag (sdict : EnvDict) (l : EnvLine) : Bool :=
  match l.key with
  | some k => !k.isEmpty && (dictLookup sdict k).isSome
  | none => false

/-- The result of `merge_env_files`: the output lines plus the updated
and added key lists that feed the dry-run report. -/
structure MergeOutcome where
  output_lines : List (List Char)
  updated_keys : List (List Char)
  added_keys : List (List Char)
deriving DecidableEq, Repr

/-- The target-derived part of the merge output. -/
def mergeBase (source target : List Char) : List (List Char) :=
  ((parseEnvText target).2).map (mergeTargetLine (parseEnvText source).1)

/-- The source-index entries whose keys are absent from the target's key
index, in source insertion order. -/
def squashEntries (source target : List Char) : EnvDict :=
  ((parseEnvText source).1).filter
    (fun p => (dictLookup (parseEnvText target).1 p.1).isNone)

/-- The freshly rendered lines appended by squash mode. -/
def squashLines (source target : List Char) : List (List Char) :=
  (squashEntries source target).map
    (fun p => generate_line p.1 p.2.value p.2.is_export p.2.quote_style)

/-- The keys recorded as updated, in target order. -/
def updatedKeysOf (source target : List Char) : List (List Char) :=
  (((parseEnvText target).2).filter (updatedFlag (parseEnvText source).1)).filterMap
    EnvLine.key

/-- The pure core of `merge_env_files` over the two file texts. -/
def merge_core (source target : List Char) (squash : Bool) : MergeOutcome :=
  ⟨(if squash then mergeBase source target ++ squashLines source target
    else mergeBase source target),
   updatedKeysOf source target,
   if squash then (squashEntries source target).map Prod.fst else []⟩

/-- Python's comma-space join over the key list. -/
def joinCommaSp : List (List Char) → List Char
  | [] => []
  | [k] => k
  | k :: rest => k ++ [',', ' '] ++ joinCommaSp rest

/-- The stderr messages printed by the dry-run branch when verbose. -/
def dryRunReport (m : MergeOutcome) : List (List Char) :=
  (if m.updated_keys.isEmpty then []
   else [("Keys to update: ".data) ++ joinCommaSp m.updated_keys]) ++
  (if m.added_keys.isEmpty then []
   else [("Keys to add: ".data) ++ joinCommaSp m.added_keys]) ++
  (if m.updated_keys.isEmpty && m.added_keys.isEmpty then
    ["No changes would be made".data]
   else [])

/-- `merge_env_files` over file texts: the returned output lines paired
with the stderr report, which is emitted only when both `dry_run` and
`verbose` are set. -/
def merge_env_files (source target : List Char)
    (squash dry_run verbose : Bool) : List (List Char) × List (List Char) :=
  let m := merge_core source target squash
  (m.output_lines, if dry_run && verbose then dryRunReport m else [])

/-- The outcome of the caller's attempt to read a file, as seen by
`parse_env_file`: missing file, other I/O fault, or the content. -/
inductive ReadResult where
  | notFound
  | ioFault (msg : List Char)
  | content (text : List Char)
deriving DecidableEq

/-- `parse_env_file` including its error handling: an unreadable file is
surfaced as a `ValueError`-style error message; readable content is
always parsed successfully. -/
def parse_env_file (file : ReadResult) :
    Except (List Char) (EnvDict × List EnvLine) :=
  match file with
  | .notFound => .error ("Environment file not found".data)
  | .ioFault m => .error ("Error reading file: ".data ++ m)
  | .content t => .ok (parseEnvText t)

/-- The last assignment record with key `k` among the classified lines. -/
def lastKeyed (lines : List (List Char)) (k : List Char) : Option EnvLine :=
  ((lines.map classifyLine).filter (fun e => decide (e.key = some k))).getLast?

/-- The keys of an index, in insertion order. -/
def keysOf (d : EnvDict) : List (List Char) :=
  d.map Prod.fst

/-- First-seen deduplication of a key list, skipping keys in `seen`. -/
def dedupFirstAux (seen : List (List Char)) : List (List Char) → List (List Char)
  | [] => []
  | k :: rest =>
    if k ∈ seen then dedupFirstAux seen rest
    else k :: dedupFirstAux (k :: seen) rest

/-- A line record is canonical in file `t` when it is the record its own
key maps to in `t`'s key index and its verbatim text is exactly what the
renderer produces for it. -/
def canonAt (t : List Char) (l : EnvLine) : Bool :=
  match l.key with
  | some k =>
    decide (dictLookup (parseEnvText t).1 k = some l) &&
      decide (generate_line k l.value l.is_export l.quote_style = l.raw)
  | none => true

/-- The spec's quote-style enumeration. -/
inductive SpecQuote where
  | noneQ
  | singleQ
  | doubleQ
deriving DecidableEq

/-- The quote character recorded by the parser for each spec quote style. -/
def quoteChar : SpecQuote → Option Char
  | .noneQ => none
  | .singleQ => some '\''
  | .doubleQ => some '"'

/-- Modelled from the spec's words for the renderer: one line
`{"export " if exported else ""}{key}={quotedValue}\n`, where
`quotedValue` wraps the (defaulted-to-empty) value in the designated
quote character for the single and double styles and emits it unwrapped
otherwise. -/
def render_spec (key : List Char) (value : Option (List Char))
    (exported : Bool) (q : SpecQuote) : List Char :=
  (if exported then exportSpChars else []) ++ key ++ ['='] ++
    (match q with
     | .singleQ => ['\''] ++ value.getD [] ++ ['\'']
     | .doubleQ => ['"'] ++ value.getD [] ++ ['"']
     | .noneQ => value.getD []) ++ ['\n']

/-! ### Basic lemmas about the parser -/

theorem splitLinesAux_join (s : List Char) :
    ∀ acc : List Char, (splitLinesAux acc s).flatten = acc.reverse ++ s := by
  induction s with
  | nil =>
    intro acc
    by_cases h : acc.isEmpty
    · simp [splitLinesAux, h, List.isEmpty_iff.mp h]
    · simp [splitLinesAux, h]
  | cons c rest ih =>
    intro acc
    by_cases h : c = '\n'
    · subst h
      simp [splitLinesAux, ih]
    · simp [splitLinesAux, h, ih]

theorem splitLines_flatten (t : List Char) : (splitLines t).flatten = t := by
  simpa using splitLinesAux_join t []

theorem classifyLine_raw (line : List Char) : (classifyLine line).raw = line := by
  unfold classifyLine
  by_cases h1 : (pyStrip line).isEmpty
  · simp [h1]
  · by_cases h2 : (pyStrip line).head? = some '#'
    · simp [h1, h2]
    · cases h3 : matchEnvLine line with
      | none => simp [h1, h2, h3]
      | some kv => obtain ⟨k, vp⟩ := kv; simp [h1, h2, h3]

theorem dictLookup_insert (d : EnvDict) (k k' : List Char) (v : EnvLine) :
    dictLookup (dictInsert d k v) k' =
      if k = k' then some v else dictLookup d k' := by
  induction d with
  | nil => simp [dictInsert, dictLookup]
  | cons p rest ih =>
    obtain ⟨k0, v0⟩ := p
    by_cases h0 : k0 = k
    · subst h0
      by_cases h1 : k0 = k'
      · subst h1
        simp [dictInsert, dictLookup]
      · simp [dictInsert, dictLookup, h1]
    · by_cases h1 : k0 = k'
      · subst h1
        have hne : ¬ k = k0 := fun h => h0 h.symm
        simp [dictInsert, dictLookup, h0, hne, ih]
      · simp [dictInsert, dictLookup, h0, h1, ih]

theorem getLast?_cons_eq {α : Type} (a : α) (l : List α) :
    (a :: l).getLast? = some (l.getLast?.getD a) := by
  cases l with
  | nil => rfl
  | cons b t =>
    rw [List.getLast?_cons_cons]
    have h : (b :: t).getLast?.isSome := by
      rw [List.getLast?_isSome]
      simp
    obtain ⟨y, hy⟩ := Option.isSome_iff_exists.mp h
    rw [hy]
    rfl

theorem mem_of_getLast?_eq {α : Type} {l : List α} {a : α}
    (h : l.getLast? = some a) : a ∈ l := by
  have hx : a ∈ l.getLast? := by rw [h]; rfl
  obtain ⟨hne, heq⟩ := List.mem_getLast?_eq_getLast hx
  rw [heq]
  exact List.getLast_mem hne

theorem buildDict_lookup (lines : List (List Char)) :
    ∀ (d : EnvDict) (k : List Char),
      dictLookup (buildDict d lines) k =
        (lastKeyed lines k).elim (dictLookup d k) some := by
  induction lines with
  | nil => intro d k; simp [buildDict, lastKeyed]
  | cons line rest ih =>
    intro d k
    unfold buildDict
    cases hkey : (classifyLine line).key with
    | none =>
      have hfilter : lastKeyed (line :: rest) k = lastKeyed rest k := by
        simp [lastKeyed, hkey]
      rw [hfilter, ih]
    | some k0 =>
      by_cases hk : k0 = k
      · subst hk
        have hp : (fun e => decide (e.key = some k0)) (classifyLine line) = true := by
          simp [hkey]
        have hfilter : lastKeyed (line :: rest) k0 =
            some ((lastKeyed rest k0).getD (classifyLine line)) := by
          simp only [lastKeyed, List.map_cons, List.filter_cons, hp, if_pos]
          exact getLast?_cons_eq _ _
        rw [hfilter, ih]
        cases hr : lastKeyed rest k0 with
        | some y => simp [hr]
        | none => simp [hr, dictLookup_insert]
      · have hp : (fun e => decide (e.key = some k)) (classifyLine line) = false := by
          simp [hkey, hk]
        have hfilter : lastKeyed (line :: rest) k = lastKeyed rest k := by
          simp [lastKeyed, List.filter_cons, hp, hkey, hk]
        rw [hfilter, ih]
        cases hr : lastKeyed rest k with
        | some y => simp [hr]
        | none => simp [hr, dictLookup_insert, hk]

/-- The key index looks up exactly the last assignment record with the
given key. -/
theorem lookup_parseEnvText (t : List Char) (k : List Char) :
    dictLookup (parseEnvText t).1 k = lastKeyed (splitLines t) k := by
  show dictLookup (buildDict [] (splitLines t)) k = _
  rw [buildDict_lookup]
  cases lastKeyed (splitLines t) k <;> simp [dictLookup]

/-- Every record stored in the key index carries its own key. -/
theorem lookup_key_eq (t : List Char) (k : List Char) (r : EnvLine)
    (h : dictLookup (parseEnvText t).1 k = some r) : r.key = some k := by
  rw [lookup_parseEnvText] at h
  have hmem : r ∈ ((splitLines t).map classifyLine).filter
      (fun e => decide (e.key = some k)) :=
    mem_of_getLast?_eq h
  have := List.of_mem_filter hmem
  simpa using this

theorem keysOf_insert (d : EnvDict) (k : List Char) (v : EnvLine) :
    keysOf (dictInsert d k v) =
      if k ∈ keysOf d then keysOf d else keysOf d ++ [k] := by
  induction d with
  | nil => simp [dictInsert, keysOf]
  | cons p rest ih =>
    obtain ⟨k0, v0⟩ := p
    simp only [keysOf] at ih ⊢
    by_cases h0 : k0 = k
    · subst h0
      simp [dictInsert]
    · have hne : ¬ k = k0 := fun h => h0 h.symm
      by_cases hmem : k ∈ rest.map Prod.fst
      · simp [dictInsert, h0, hne, hmem, ih]
      · simp [dictInsert, h0, hne, hmem, ih]

theorem dedupFirstAux_congr (l : List (List Char)) :
    ∀ s1 s2 : List (List Char), (∀ x, x ∈ s1 ↔ x ∈ s2) →
      dedupFirstAux s1 l = dedupFirstAux s2 l := by
  induction l with
  | nil => intro s1 s2 _; rfl
  | cons k rest ih =>
    intro s1 s2 hs
    by_cases hk : k ∈ s1
    · have hk2 : k ∈ s2 := (hs k).mp hk
      simp [dedupFirstAux, hk, hk2, ih s1 s2 hs]
    · have hk2 : k ∉ s2 := fun h => hk ((hs k).mpr h)
      simp only [dedupFirstAux, if_neg hk, if_neg hk2]
      rw [ih (k :: s1) (k :: s2) (by intro x; simp [hs x])]

theorem buildDict_keys (lines : List (List Char)) :
    ∀ d : EnvDict,
      keysOf (buildDict d lines) =
        keysOf d ++ dedupFirstAux (keysOf d)
          (lines.filterMap (fun line => (classifyLine line).key)) := by
  induction lines with
  | nil => intro d; simp [buildDict, dedupFirstAux]
  | cons line rest ih =>
    intro d
    unfold buildDict
    cases hkey : (classifyLine line).key with
    | none => simp [hkey, ih, dedupFirstAux]
    | some k0 =>
      by_cases hmem : k0 ∈ keysOf d
      · have hkeys : keysOf (dictInsert d k0 (classifyLine line)) = keysOf d := by
          rw [keysOf_insert, if_pos hmem]
        simp only [List.filterMap_cons, hkey]
        rw [ih, hkeys, dedupFirstAux, if_pos hmem]
      · have hkeys : keysOf (dictInsert d k0 (classifyLine line)) = keysOf d ++ [k0] := by
          rw [keysOf_insert, if_neg hmem]
        simp only [List.filterMap_cons, hkey]
        rw [ih, hkeys, dedupFirstAux, if_neg hmem]
        rw [dedupFirstAux_congr _ (keysOf d ++ [k0]) (k0 :: keysOf d)
          (by intro x; simp [or_comm])]
        simp

theorem dedupFirstAux_nodup (l : List (List Char)) :
    ∀ seen : List (List Char),
      (dedupFirstAux seen l).Nodup ∧ ∀ x ∈ dedupFirstAux seen l, x ∉ seen := by
  induction l with
  | nil => intro seen; simp [dedupFirstAux]
  | cons k rest ih =>
    intro seen
    by_cases hk : k ∈ seen
    · simpa [dedupFirstAux, hk] using ih seen
    · obtain ⟨hnd, hnotin⟩ := ih (k :: seen)
      refine ⟨?_, ?_⟩
      · simp only [dedupFirstAux, if_neg hk]
        refine List.nodup_cons.mpr ⟨?_, hnd⟩
        intro hmem
        exact (hnotin k hmem) (by simp)
      · intro x hx
        simp only [dedupFirstAux, if_neg hk, List.mem_cons] at hx
        rcases hx with rfl | hx
        · exact hk
        · intro hxs
          exact hnotin x hx (by simp [hxs])

/-- The key index has no duplicate keys. -/
theorem keysOf_parse_nodup (t : List Char) :
    (keysOf (parseEnvText t).1).Nodup := by
  show (keysOf (buildDict [] (splitLines t))).Nodup
  rw [buildDict_keys]
  simpa [keysOf] using (dedupFirstAux_nodup _ []).1

/-! ### Merge engine lemmas -/

theorem merge_core_output (source target : List Char) (squash : Bool) :
    (merge_core source target squash).output_lines =
      if squash then mergeBase source target ++ squashLines source target
      else mergeBase source target := rfl

theorem mergeBase_length (source target : List Char) :
    (mergeBase source target).length = (splitLines target).length := by
  simp [mergeBase, parseEnvText]

/-- Indexing the merge output inside the target-derived range. -/
theorem merge_output_getElem? (source target : List Char) (squash : Bool)
    (i : Nat) (hi : i < (splitLines target).length) :
    (merge_core source target squash).output_lines[i]? =
      (((parseEnvText target).2)[i]?).map (mergeTargetLine (parseEnvText source).1) := by
  rw [merge_core_output]
  have hlen : i < (mergeBase source target).length := by
    rw [mergeBase_length]; exact hi
  have hbase : (mergeBase source target)[i]? =
      (((parseEnvText target).2)[i]?).map (mergeTargetLine (parseEnvText source).1) := by
    simp [mergeBase, List.getElem?_map]
  cases squash with
  | false => simpa using hbase
  | true =>
    simp only [if_pos trivial]
    rw [List.getElem?_append_left hlen]
    exact hbase

theorem lt_of_getElem?_eq_some {α : Type} {l : List α} {i : Nat} {a : α}
    (h : l[i]? = some a) : i < l.length := by
  by_contra hge
  push_neg at hge
  rw [List.getElem?_eq_none_iff.mpr hge] at h
  cases h

/-- A line on which the assignment grammar fails never yields a key. -/
theorem key_none_of_matchNone (line : List Char)
    (hm : matchEnvLine line = none) : (classifyLine line).key = none := by
  unfold classifyLine
  by_cases h1 : (pyStrip line).isEmpty
  · simp [h1]
  · by_cases h2 : (pyStrip line).head? = some '#'
    · simp [h1, h2]
    · simp [h1, h2, hm]

/-! ### The claims -/

/-- C1: a target Assignment line whose key is in the source key index is
re-rendered with the source's value and quote style (taken from the last
occurrence of the key in the source file) and with the exported flag the
OR of the target line's and the source record's flags. -/
theorem C1_merge_uses_source_value (source target : List Char) (squash : Bool)
    (i : Nat) (l r : EnvLine) (k : List Char)
    (hi : ((parseEnvText target).2)[i]? = some l)
    (hk : l.key = some k) (hne : k ≠ [])
    (hr : dictLookup (parseEnvText source).1 k = some r) :
    (merge_core source target squash).output_lines[i]? =
      some (generate_line k r.value (l.is_export || r.is_export) r.quote_style) ∧
    lastKeyed (splitLines source) k = some r := by
  have hlen : i < (splitLines target).length := by
    have := lt_of_getElem?_eq_some hi
    simpa [parseEnvText] using this
  constructor
  · rw [merge_output_getElem? source target squash i hlen, hi]
    simp only [Option.map_some']
    congr 1
    simp [mergeTargetLine, hk, List.isEmpty_iff, hne, hr]
  · rw [← lookup_parseEnvText]
    exact hr

/-- C1 witness: target `KEY=old` merged with source `export KEY=value`
yields the line `export KEY=value`. -/
theorem C1_witness :
    (merge_core ("export KEY=value\n".data) ("KEY=old\n".data) false).output_lines[0]?
      = some ("export KEY=value\n".data) := by
  have h := C1_merge_uses_source_value ("export KEY=value\n".data) ("KEY=old\n".data)
    false 0
    ⟨"KEY=old\n".data, some "KEY".data, some "old".data, none, false, false, false⟩
    ⟨"export KEY=value\n".data, some "KEY".data, some "value".data, none,
      true, false, false⟩
    ("KEY".data) (by decide) (by decide) (by decide) (by decide)
  exact h.1.trans (by decide)

/-- C5: without squash the merge yields exactly one output line per
physical target line; with squash it additionally yields one line per
source-index key absent from the target's key index. -/
theorem C5_line_count (source target : List Char) :
    (merge_core source target false).output_lines.length =
      (splitLines target).length ∧
    (merge_core source target true).output_lines.length =
      (splitLines target).length +
        (((parseEnvText source).1).filter
          (fun p => (dictLookup (parseEnvText target).1 p.1).isNone)).length := by
  constructor
  · simp [merge_core_output, mergeBase_length]
  · simp [merge_core_output, mergeBase_length, squashLines, squashEntries]

/-- C6: squash appends, after all target-derived lines, exactly one
freshly rendered line per source-index key absent from the target index,
in the source's first-seen insertion order, and never appends a key that
the target already has. -/
theorem C6_squash_appends (source target : List Char) :
    (merge_core source target true).output_lines =
      (merge_core source target false).output_lines ++ squashLines source target ∧
    (merge_core source target true).added_keys =
      (squashEntries source target).map Prod.fst ∧
    keysOf (parseEnvText source).1 =
      dedupFirstAux []
        ((splitLines source).filterMap (fun line => (classifyLine line).key)) ∧
    ((merge_core source target true).added_keys).Nodup ∧
    ∀ k, (dictLookup (parseEnvText source).1 k).isSome →
      (dictLookup (parseEnvText target).1 k).isSome →
      k ∉ (merge_core source target true).added_keys := by
  refine ⟨by simp [merge_core], by simp [merge_core], ?_, ?_, ?_⟩
  · show keysOf (buildDict [] (splitLines source)) = _
    rw [buildDict_keys]
    simp [keysOf]
  · have h1 : (squashEntries source target).Sublist (parseEnvText source).1 :=
      List.filter_sublist _
    have h2 := h1.map Prod.fst
    have h3 : ((squashEntries source target).map Prod.fst).Nodup :=
      List.Nodup.sublist h2 (keysOf_parse_nodup source)
    simpa [merge_core] using h3
  · intro k hs ht hmem
    simp only [merge_core, if_pos, List.mem_map] at hmem
    obtain ⟨p, hp, rfl⟩ := hmem
    have hnone := List.of_mem_filter hp
    simp only [Option.isNone_iff_eq_none, decide_eq_true_eq] at hnone
    rw [hnone] at ht
    cases ht

/-- C6 witness: source `A=1`,`B=2` into target `A=0` with squash appends
only the absent key `B`; the shared key `A` is not appended. -/
theorem C6_witness :
    (merge_core ("A=1\nB=2\n".data) ("A=0\n".data) true).output_lines =
      ["A=1\n".data, "B=2\n".data] ∧
    "A".data ∉ (merge_core ("A=1\nB=2\n".data) ("A=0\n".data) true).added_keys := by
  have h := C6_squash_appends ("A=1\nB=2\n".data) ("A=0\n".data)
  exact ⟨by decide, h.2.2.2.2 ("A".data) (by decide) (by decide)⟩

/-- C7: a line that fails the assignment grammar is recorded as an
Unrecognized record with no key, is emitted verbatim by the merge, and
never occurs as a key-index entry. -/
theorem C7_malformed_passthrough (source target : List Char) (squash : Bool)
    (i : Nat) (line : List Char)
    (hi : (splitLines target)[i]? = some line)
    (hm : matchEnvLine line = none) :
    ((parseEnvText target).2)[i]? = some (classifyLine line) ∧
    (classifyLine line).key = none ∧
    (merge_core source target squash).output_lines[i]? = some line ∧
    ∀ k, dictLookup (parseEnvText target).1 k ≠ some (classifyLine line) := by
  have hkey : (classifyLine line).key = none := key_none_of_matchNone line hm
  have hlen : i < (splitLines target).length := lt_of_getElem?_eq_some hi
  have hparse : ((parseEnvText target).2)[i]? = some (classifyLine line) := by
    simp [parseEnvText, List.getElem?_map, hi]
  refine ⟨hparse, hkey, ?_, ?_⟩
  · rw [merge_output_getElem? source target squash i hlen, hparse]
    simp [mergeTargetLine, hkey, classifyLine_raw]
  · intro k hcontra
    have hkk := lookup_key_eq target k _ hcontra
    rw [hkey] at hkk
    cases hkk

/-- C7 witness: the malformed target line `INVALID LINE` passes through
the merge unchanged and contributes no key to the index. -/
theorem C7_witness :
    (merge_core ("KEY=v\n".data) ("INVALID LINE\n".data) false).output_lines[0]?
      = some ("INVALID LINE\n".data) ∧
    dictLookup (parseEnvText ("INVALID LINE\n".data)).1 ("INVALID".data) = none := by
  have h := C7_malformed_passthrough ("KEY=v\n".data) ("INVALID LINE\n".data)
    false 0 ("INVALID LINE\n".data) (by decide) (by decide)
  exact ⟨h.2.2.1, by decide⟩

/-- C8: parsing fails exactly when the file is unreadable (missing or
I/O fault); any readable content, however malformed, parses
successfully. -/
theorem C8_parse_error_iff_unreadable (file : ReadResult) :
    ((∃ e, parse_env_file file = .error e) ↔
      file = ReadResult.notFound ∨ ∃ m, file = ReadResult.ioFault m) ∧
    ∀ t, file = ReadResult.content t →
      parse_env_file file = .ok (parseEnvText t) := by
  cases file <;> simp [parse_env_file]

/-- C8 witness: a present file with a malformed line parses
successfully, and a missing file yields an error. -/
theorem C8_witness :
    parse_env_file (ReadResult.content ("INVALID LINE\n".data)) =
      .ok (parseEnvText ("INVALID LINE\n".data)) ∧
    ∃ e, parse_env_file ReadResult.notFound = .error e := by
  refine ⟨(C8_parse_error_iff_unreadable
    (ReadResult.content ("INVALID LINE\n".data))).2 _ rfl, ?_⟩
  exact (C8_parse_error_iff_unreadable ReadResult.notFound).1.mpr (Or.inl rfl)

/-- C9: the renderer produces exactly
`{"export " if exported else ""}{key}={quotedValue}\n`, wrapping the
value in the designated quote character for the single and double quote
styles and emitting it bare otherwise, with a missing value treated as
empty; an empty value with no quote style renders as the bare `KEY=`. -/
theorem C9_render_exact :
    (∀ (k : List Char) (v : Option (List Char)) (e : Bool) (q : SpecQuote),
      generate_line k v e (quoteChar q) = render_spec k v e q) ∧
    generate_line ("KEY".data) none false none = "KEY=\n".data := by
  constructor
  · intro k v e q
    cases q <;>
      simp [generate_line, render_spec, quoteChar, List.append_assoc,
        List.cons_append, List.singleton_append]
  · decide

/-- C10: the grammar accepts `export` followed by any nonempty
whitespace run, but the exported flag is set exactly when the stripped
line starts with `export` plus a single space. -/
theorem C10_export_single_space (line : List Char) (k : List Char)
    (hk : (classifyLine line).key = some k) :
    (classifyLine line).is_export = exportSpChars.isPrefixOf (pyStrip line) := by
  unfold classifyLine at hk ⊢
  by_cases h1 : (pyStrip line).isEmpty
  · simp [h1] at hk
  · by_cases h2 : (pyStrip line).head? = some '#'
    · simp [h1, h2] at hk
    · cases h3 : matchEnvLine line with
      | none => simp [h1, h2, h3] at hk
      | some kv =>
        obtain ⟨k', vp⟩ := kv
        simp [h1, h2, h3]

/-- C10 witness: `export\tKEY=v` (tab after `export`) parses as an
Assignment with key `KEY` and exported=false, and merging renders the
line without the `export ` marker. -/
theorem C10_witness :
    (classifyLine ("export\tKEY=v\n".data)).key = some ("KEY".data) ∧
    (classifyLine ("export\tKEY=v\n".data)).is_export = false ∧
    (merge_core ("export\tKEY=v\n".data) ("KEY=old\n".data) false).output_lines =
      ["KEY=v\n".data] := by
  have h := C10_export_single_space ("export\tKEY=v\n".data) ("KEY".data) (by decide)
  exact ⟨by decide, h.trans (by decide), by decide⟩

/-- C2 counterexample: with dryRun=true (and verbose off, the default),
the merge still produces a nonempty output-line list and reports
nothing, although a key was updated — refuting "no output lines are
produced; instead the engine reports the updated and added keys". -/
theorem C2_dry_run_counterexample :
    (merge_env_files ("KEY=value\n".data) ("KEY=old\n".data) false true false).1 ≠ [] ∧
    (merge_env_files ("KEY=value\n".data) ("KEY=old\n".data) false true false).2 = [] ∧
    (merge_core ("KEY=value\n".data) ("KEY=old\n".data) false).updated_keys =
      ["KEY".data] := by
  decide

/-- C2 (amended): with dryRun=true the merge function still computes and
returns the same output lines as without dry-run; the updated/added key
report (or the explicit no-changes notice when both sets are empty) is
emitted only when verbose is also enabled. -/
theorem C2_dry_run_report (source target : List Char) (squash verbose : Bool) :
    (merge_env_files source target squash true verbose).1 =
      (merge_env_files source target squash false verbose).1 ∧
    (merge_env_files source target squash true false).2 = [] ∧
    ((merge_core source target squash).updated_keys = [] →
      (merge_core source target squash).added_keys = [] →
      (merge_env_files source target squash true true).2 =
        ["No changes would be made".data]) ∧
    ((merge_core source target squash).updated_keys ≠ [] →
      (("Keys to update: ".data) ++
        joinCommaSp (merge_core source target squash).updated_keys) ∈
        (merge_env_files source target squash true true).2) := by
  refine ⟨rfl, by simp [merge_env_files], ?_, ?_⟩
  · intro hu ha
    simp [merge_env_files, dryRunReport, hu, ha]
  · intro hu
    simp [merge_env_files, dryRunReport, List.isEmpty_iff, hu]

/-- C2 witness: a dry run that updates `KEY` keeps the output lines and,
with verbose on, reports the key to update. -/
theorem C2_witness :
    (merge_env_files ("KEY=value\n".data) ("KEY=old\n".data) false true true).1 =
      (merge_env_files ("KEY=value\n".data) ("KEY=old\n".data) false false true).1 ∧
    ("Keys to update: KEY".data) ∈
      (merge_env_files ("KEY=value\n".data) ("KEY=old\n".data) false true true).2 := by
  have h := C2_dry_run_report ("KEY=value\n".data) ("KEY=old\n".data) false true
  refine ⟨h.1, ?_⟩
  have h2 := h.2.2.2 (by decide)
  exact (by decide :
    ("Keys to update: ".data) ++
      joinCommaSp (merge_core ("KEY=value\n".data) ("KEY=old\n".data) false).updated_keys
      = "Keys to update: KEY".data) ▸ h2

/-- C3 counterexample: a file with a duplicate key merged with itself is
not reproduced textually — both occurrences are rewritten to the last
value, so the output differs from the input. -/
theorem C3_selfmerge_counterexample :
    ((merge_core ("KEY=value1\nKEY=value2\n".data)
        ("KEY=value1\nKEY=value2\n".data) false).output_lines).flatten ≠
      "KEY=value1\nKEY=value2\n".data := by
  decide

/-- C3 (amended): merging a file with itself (squash=false) reproduces
the input textually provided every assignment line is canonical: it is
the record its own key maps to in the key index (no shadowed duplicate)
and its text is exactly the renderer's output for its parsed record. -/
theorem C3_selfmerge_canonical (t : List Char)
    (hcanon : ∀ l ∈ (parseEnvText t).2, canonAt t l = true) :
    ((merge_core t t false).output_lines).flatten = t := by
  have hbase : mergeBase t t = splitLines t := by
    unfold mergeBase
    have hshape : (parseEnvText t).2 = (splitLines t).map classifyLine := rfl
    rw [hshape, List.map_map]
    have hpt : ∀ line ∈ splitLines t,
        (mergeTargetLine (parseEnvText t).1 ∘ classifyLine) line = id line := by
      intro line hline
      have hmem : classifyLine line ∈ (parseEnvText t).2 := by
        rw [hshape]
        exact List.mem_map_of_mem classifyLine hline
      have hc := hcanon (classifyLine line) hmem
      show mergeTargetLine (parseEnvText t).1 (classifyLine line) = line
      cases hkey : (classifyLine line).key with
      | none => simp [mergeTargetLine, hkey, classifyLine_raw]
      | some k =>
        simp only [canonAt, hkey, Bool.and_eq_true, decide_eq_true_eq] at hc
        obtain ⟨hlook, hgen⟩ := hc
        by_cases hke : k.isEmpty
        · simp [mergeTargetLine, hkey, hke, classifyLine_raw]
        · simp [mergeTargetLine, hkey, hke, hlook, hgen, classifyLine_raw]
    rw [List.map_congr_left hpt, List.map_id]
  have hout : (merge_core t t false).output_lines = splitLines t := by
    rw [merge_core_output]
    simpa using hbase
  rw [hout, splitLines_flatten]

/-- C3 witness: a canonical file (comment, exported quoted assignment,
plain assignment; no duplicates) self-merges to itself. -/
theorem C3_witness :
    ((merge_core ("# c\nexport KEY='v'\nA=x\n".data)
        ("# c\nexport KEY='v'\nA=x\n".data) false).output_lines).flatten =
      "# c\nexport KEY='v'\nA=x\n".data :=
  C3_selfmerge_canonical ("# c\nexport KEY='v'\nA=x\n".data) (by decide)

/-- C4 counterexample: a line with leading whitespace before `KEY=value`
is not classified as an Assignment — the grammar is matched against the
raw line, not the trimmed text — while the same line without leading
whitespace is. -/
theorem C4_counterexample :
    (classifyLine (" KEY=value\n".data)).key = none ∧
    dictLookup (parseEnvText (" KEY=value\n".data)).1 ("KEY".data) = none ∧
    (classifyLine ("KEY=value\n".data)).key = some ("KEY".data) := by
  decide

/-- C4 (amended): only the blank and comment checks use the trimmed
text; the assignment grammar is matched against the raw line, so any
line starting with a whitespace character is never an Assignment. -/
theorem C4_leading_ws_not_assignment (c : Char) (rest : List Char)
    (h : pyIsSpace c = true) :
    (classifyLine (c :: rest)).key = none := by
  have key_of : ∀ c' : Char, isIdentStart c' = false →
      exportChars.isPrefixOf (c' :: rest) = false →
      (classifyLine (c' :: rest)).key = none := by
    intro c' h1 h2
    apply key_none_of_matchNone
    simp [matchEnvLine, h2, tryKeyValue, matchKeyEq, h1]
  simp only [pyIsSpace, Bool.or_eq_true, beq_iff_eq] at h
  rcases h with ((((rfl | rfl) | rfl) | rfl) | rfl) | rfl <;>
    exact key_of _ (by decide) (by simp [exportChars, List.isPrefixOf])

/-- C4 witness: the leading-whitespace line ` KEY=value` is not an
Assignment. -/
theorem C4_witness :
    (classifyLine (" KEY=value\n".data)).key = none :=
  C4_leading_ws_not_assignment ' ' ("KEY=value\n".data) (by decide)

end Envyeet
